import Mathlib

/-!
# Verification of the `myfind` concurrent file search (src/myfind.cpp)

Shallow embedding of the core of `myfind.cpp`: the recursive directory
search `searchForFile`, the string comparison `isEqualString`, the
per-filename child-task body of `main` (search + synthetic not-found
line), and the post-getopt argument check of `main`.

The filesystem seen by one task is modelled as a tree of directory
entries.  Each entry carries the data the program observes through the
POSIX API:
- a regular file (`d_type == DT_REG`) carries the outcome of
  `realpath` on its full path (`some absPath`, or `none` when
  resolution fails);
- a directory (`d_type == DT_DIR`) carries the outcome of `opendir`
  on its full path (`some entries` in `readdir` order, or `none` when
  opening fails);
- `other` stands for every remaining `d_type` (symlinks not followed,
  devices, sockets, fifos), which the code never touches.

Writes of result records to the pipe are modelled as an output list
(the code exits on a failed `write`; writes are assumed to succeed
here), and the `perror` diagnostics of `handleErrorOpeningDir` as a
second output list, distinct from the result stream.
-/

namespace Myfind

/-- One directory entry as the traversal observes it (name from
`dirent::d_name`, kind from `dirent::d_type`, plus the filesystem's
answers to `realpath` / `opendir` on the entry's full path). -/
inductive FSEntry where
  | file (name : String) (resolved : Option String) : FSEntry
  | dir (name : String) (listing : Option (List FSEntry)) : FSEntry
  | other (name : String) : FSEntry

/-- The `d_name` of an entry. -/
def FSEntry.name : FSEntry → String
  | .file n _ => n
  | .dir n _ => n
  | .other n => n

/-- A result record written to the pipe: a Found line
`"<pid>: <filename>: <absPath>"` or a NotFound line
`"<pid>: <filename>: File not found in <searchpath>"`.  The task id
(pid) is constant within one task and omitted. -/
inductive Rec where
  | found (filename abspath : String) : Rec
  | notFound (filename root : String) : Rec
deriving Repr, DecidableEq

/-- Whether a record is a Found line. -/
def Rec.isFound : Rec → Bool
  | .found _ _ => true
  | .notFound _ _ => false

/-- Whether a record is a NotFound line. -/
def Rec.isNotFound : Rec → Bool
  | .found _ _ => false
  | .notFound _ _ => true

/-- ASCII case fold of one character, as `strcasecmp` applies in the
program's (untouched, hence "C") locale: `A`–`Z` map to `a`–`z`,
every other byte is unchanged. -/
def foldChar (c : Char) : Char :=
  if 'A' ≤ c ∧ c ≤ 'Z' then Char.ofNat (c.toNat + 32) else c

/-- `strcasecmp(s1, s2) == 0`: equality after the locale-independent
ASCII case fold. -/
def strcasecmpEq (s1 s2 : String) : Bool :=
  s1.data.map foldChar == s2.data.map foldChar

/-- `isEqualString` (myfind.cpp lines 29–34): byte-exact equality, or
`strcasecmp` equality when `ignoreCase` is set. -/
def isEqualString (s1 s2 : String) (ignoreCase : Bool) : Bool :=
  if ignoreCase then strcasecmpEq s1 s2 else s1 == s2

/-- Everything one call of `searchForFile` produces: the returned
`isFound` flag, the Found records written to the pipe (in write
order), and the `handleErrorOpeningDir` diagnostics printed to the
error stream (the path of each directory that failed to open). -/
structure SearchOut where
  found : Bool
  results : List Rec
  diags : List String
deriving Repr, DecidableEq

mutual

/-- `searchForFile(path, filename, pipefd, isRecursive, ignoreCase)`
(myfind.cpp lines 48–95).  `listing` is what `opendir(path)` yields:
`none` means the open failed (the code calls `handleErrorOpeningDir`
and returns `false` with nothing written). -/
def searchForFile (path filename : String) (isRecursive ignoreCase : Bool) :
    Option (List FSEntry) → SearchOut
  | none => ⟨false, [], [path]⟩
  | some entries => searchEntries path filename isRecursive ignoreCase entries false

/-- The `readdir` loop of `searchForFile` (myfind.cpp lines 57–88),
threading the `isFound` flag through the remaining entries.  Note the
C++ short-circuit in line 68, `isFound = isFound || searchForFile(…)`:
once `isFound` is true the recursive call is not evaluated, so the
subdirectory is not entered. -/
def searchEntries (path filename : String) (isRecursive ignoreCase : Bool) :
    List FSEntry → Bool → SearchOut
  | [], isFound => ⟨isFound, [], []⟩
  | ent :: rest, isFound =>
    if ent.name == "." || ent.name == ".." then
      searchEntries path filename isRecursive ignoreCase rest isFound
    else
      match ent with
      | .dir name listing =>
        if isRecursive then
          if isFound then
            searchEntries path filename isRecursive ignoreCase rest true
          else
            let sub := searchForFile (path ++ "/" ++ name) filename isRecursive ignoreCase
              listing
            let restOut := searchEntries path filename isRecursive ignoreCase rest sub.found
            ⟨restOut.found, sub.results ++ restOut.results, sub.diags ++ restOut.diags⟩
        else
          searchEntries path filename isRecursive ignoreCase rest isFound
      | .file name resolved =>
        if isEqualString name filename ignoreCase then
          match resolved with
          | some absPath =>
            let restOut := searchEntries path filename isRecursive ignoreCase rest true
            ⟨restOut.found, Rec.found filename absPath :: restOut.results, restOut.diags⟩
          | none =>
            searchEntries path filename isRecursive ignoreCase rest isFound
        else
          searchEntries path filename isRecursive ignoreCase rest isFound
      | .other _ =>
        searchEntries path filename isRecursive ignoreCase rest isFound

end

/-- The body of one child task (myfind.cpp lines 150–171): run the
search, then write one NotFound line if and only if nothing was
found.  Returns the records written to the pipe and the diagnostics
printed to the error stream. -/
def runTask (rootPath : String) (rootListing : Option (List FSEntry))
    (filename : String) (isRecursive ignoreCase : Bool) : List Rec × List String :=
  let s := searchForFile rootPath filename isRecursive ignoreCase rootListing
  (s.results ++ (if s.found then [] else [Rec.notFound filename rootPath]), s.diags)

/-- The fork loop of `main` (myfind.cpp lines 137–173): one task per
requested filename, all over the same root. -/
def runAll (rootPath : String) (rootListing : Option (List FSEntry))
    (filenames : List String) (isRecursive ignoreCase : Bool) :
    List (String × List Rec) :=
  filenames.map fun fn => (fn, (runTask rootPath rootListing fn isRecursive ignoreCase).1)

/-- The filename a record is attributed to (second field of the
output line). -/
def Rec.fname : Rec → String
  | .found fn _ => fn
  | .notFound fn _ => fn

mutual

/-- Scope predicate for the spec's testable properties: a regular
file whose name matches `filename` under the active case policy
exists within the traversal scope — the immediate children when
`isRecursive` is off, the full (openable) subtree when it is on.
The contents of a directory that fails to open are not part of the
model, so only listed subtrees are inspected. -/
def hasMatchDir (filename : String) (isRecursive ignoreCase : Bool) :
    Option (List FSEntry) → Bool
  | none => false
  | some entries => hasMatchList filename isRecursive ignoreCase entries

/-- `hasMatchDir` on one level of entries. -/
def hasMatchList (filename : String) (isRecursive ignoreCase : Bool) :
    List FSEntry → Bool
  | [] => false
  | ent :: rest =>
    (if ent.name == "." || ent.name == ".." then false
     else
       match ent with
       | .file name _ => isEqualString name filename ignoreCase
       | .dir _ listing => isRecursive && hasMatchDir filename isRecursive ignoreCase listing
       | .other _ => false)
    || hasMatchList filename isRecursive ignoreCase rest

end

mutual

/-- Like `hasMatchDir` for a recursive search, additionally requiring
the matching file's path to be resolvable — exactly the situation in
which the traversal is guaranteed to emit a Found record for it. -/
def hasResMatchDir (filename : String) (ignoreCase : Bool) :
    Option (List FSEntry) → Bool
  | none => false
  | some entries => hasResMatchList filename ignoreCase entries

/-- `hasResMatchDir` on one level of entries. -/
def hasResMatchList (filename : String) (ignoreCase : Bool) :
    List FSEntry → Bool
  | [] => false
  | ent :: rest =>
    (if ent.name == "." || ent.name == ".." then false
     else
       match ent with
       | .file name (some _) => isEqualString name filename ignoreCase
       | .file _ none => false
       | .dir _ listing => hasResMatchDir filename ignoreCase listing
       | .other _ => false)
    || hasResMatchList filename ignoreCase rest

end

/-- Outcome of `main` after `getopt` has consumed the flags: either
the usage-error exit of line 121 (`exit(EXIT_FAILURE)` before the
pipe is created, before any task is forked and before any directory
is opened), or a completed run over the parsed root and filenames. -/
inductive RunOutcome where
  | usageError : RunOutcome
  | ran (outputs : List (String × List Rec)) : RunOutcome
deriving Repr, DecidableEq

/-- `main` from the argument check onward (myfind.cpp lines 118–196):
`positional` is `argv[optind..argc-1]` left over after `getopt`;
fewer than two positional arguments (`optind >= argc - 1`) is the
usage error; otherwise the first is the search path and the rest are
the filenames, one forked task each.  `rootListing` is what
`opendir(searchpath)` yields inside each task. -/
def mainAfterOpts (positional : List String)
    (rootListing : Option (List FSEntry)) (isRecursive ignoreCase : Bool) :
    RunOutcome :=
  match positional with
  | root :: fn1 :: fns => .ran (runAll root rootListing (fn1 :: fns) isRecursive ignoreCase)
  | _ => .usageError

/-- Process exit status of the modelled `main`: `EXIT_FAILURE` (1) on
the usage error, 0 on a completed run. -/
def exitCode : RunOutcome → Nat
  | .usageError => 1
  | .ran _ => 0

theorem searchEntries_mono_true (path fn : String) (r i : Bool) (entries : List FSEntry) :
    (searchEntries path fn r i entries true).found = true := by
  induction entries with
  | nil => rw [searchEntries.eq_def]
  | cons ent rest ih =>
    rw [searchEntries.eq_def]
    cases ent with
    | file name resolved =>
      by_cases hskip : (name == "." || name == "..") = true
      · simp [FSEntry.name, hskip, ih]
      · by_cases hm : isEqualString name fn i = true
        · cases resolved with
          | some p => simp [FSEntry.name, hskip, hm, ih]
          | none => simp [FSEntry.name, hskip, hm, ih]
        · simp [FSEntry.name, hskip, hm, ih]
    | dir name listing =>
      by_cases hskip : (name == "." || name == "..") = true
      · simp [FSEntry.name, hskip, ih]
      · cases r with
        | true => simp [FSEntry.name, hskip, ih]
        | false => simp [FSEntry.name, hskip, ih]
    | other name =>
      by_cases hskip : (name == "." || name == "..") = true
      · simp [FSEntry.name, hskip, ih]
      · simp [FSEntry.name, hskip, ih]

theorem searchEntries_found_iff :
    ∀ (path fn : String) (r i : Bool) (entries : List FSEntry) (f : Bool),
      (searchEntries path fn r i entries f).found
        = (f || !(searchEntries path fn r i entries f).results.isEmpty) := by
  refine searchEntries.induct
    (fun path fn r i listing =>
      (searchForFile path fn r i listing).found
        = !(searchForFile path fn r i listing).results.isEmpty)
    (fun path fn r i entries f =>
      (searchEntries path fn r i entries f).found
        = (f || !(searchEntries path fn r i entries f).results.isEmpty))
    ?_ ?_ ?_ ?_ ?_ ?_ ?_ ?_ ?_ ?_ ?_
  · intro path fn r i
    simp [searchForFile]
  · intro path fn r i entries ih
    simpa [searchForFile] using ih
  · intro path fn r i f
    rw [searchEntries.eq_def]
    simp
  · intro path fn r i ent rest f hskip ih
    rw [searchEntries.eq_def]
    simp [hskip, ih]
  · intro path fn i rest name listing hskip ih
    rw [searchEntries.eq_def]
    simp [FSEntry.name] at hskip
    simp [FSEntry.name, hskip, ih]
  · intro path fn i rest f name listing hf sub hskip ih1 ih2
    rw [searchEntries.eq_def]
    simp [FSEntry.name] at hskip
    simp only [Bool.not_eq_true] at hf
    subst hf
    simp only [sub] at ih2
    cases hsr : (searchForFile (path ++ "/" ++ name) fn true i listing).results with
    | nil =>
      rw [hsr] at ih1
      simp only [ih1, hsr] at ih2 ⊢
      simp only [List.isEmpty_nil, Bool.not_true, Bool.false_or] at ih2
      simp [FSEntry.name, hskip, ih1, ih2]
    | cons x xs =>
      rw [hsr] at ih1
      simp only [ih1, hsr] at ih2 ⊢
      simp [FSEntry.name, hskip, ih1, searchEntries_mono_true]
  · intro path fn r i rest f name listing hr hskip ih
    rw [searchEntries.eq_def]
    simp [FSEntry.name] at hskip
    simp only [Bool.not_eq_true] at hr
    subst hr
    simp [FSEntry.name, hskip, ih]
  · intro path fn r i rest f name hm absPath hskip ih
    rw [searchEntries.eq_def]
    simp [FSEntry.name] at hskip
    simp [FSEntry.name, hskip, hm, searchEntries_mono_true]
  · intro path fn r i rest f name hm hskip ih
    rw [searchEntries.eq_def]
    simp [FSEntry.name] at hskip
    simp [FSEntry.name, hskip, hm, ih]
  · intro path fn r i rest f name resolved hm hskip ih
    rw [searchEntries.eq_def]
    simp [FSEntry.name] at hskip
    simp [FSEntry.name, hskip, hm, ih]
  · intro path fn r i rest f name hskip ih
    rw [searchEntries.eq_def]
    simp [FSEntry.name] at hskip
    simp [FSEntry.name, hskip, ih]

theorem searchForFile_found_iff (path fn : String) (r i : Bool)
    (listing : Option (List FSEntry)) :
    (searchForFile path fn r i listing).found
      = !(searchForFile path fn r i listing).results.isEmpty := by
  cases listing with
  | none => simp [searchForFile]
  | some entries =>
    simpa [searchForFile] using searchEntries_found_iff path fn r i entries false

theorem searchEntries_results_shape :
    ∀ (path fn : String) (r i : Bool) (entries : List FSEntry) (f : Bool),
      ∀ x ∈ (searchEntries path fn r i entries f).results, ∃ p, x = Rec.found fn p := by
  refine searchEntries.induct
    (fun path fn r i listing =>
      ∀ x ∈ (searchForFile path fn r i listing).results, ∃ p, x = Rec.found fn p)
    (fun path fn r i entries f =>
      ∀ x ∈ (searchEntries path fn r i entries f).results, ∃ p, x = Rec.found fn p)
    ?_ ?_ ?_ ?_ ?_ ?_ ?_ ?_ ?_ ?_ ?_
  · intro path fn r i
    simp [searchForFile]
  · intro path fn r i entries ih
    simpa [searchForFile] using ih
  · intro path fn r i f
    rw [searchEntries.eq_def]
    simp
  · intro path fn r i ent rest f hskip ih
    rw [searchEntries.eq_def]
    simp [hskip]
    exact ih
  · intro path fn i rest name listing hskip ih
    rw [searchEntries.eq_def]
    simp [FSEntry.name] at hskip
    simp [FSEntry.name, hskip]
    exact ih
  · intro path fn i rest f name listing hf sub hskip ih1 ih2
    rw [searchEntries.eq_def]
    simp [FSEntry.name] at hskip
    simp only [Bool.not_eq_true] at hf
    subst hf
    simp only [sub] at ih2
    simp [FSEntry.name, hskip]
    intro x hx
    rcases hx with hx | hx
    · exact ih1 x hx
    · exact ih2 x hx
  · intro path fn r i rest f name listing hr hskip ih
    rw [searchEntries.eq_def]
    simp [FSEntry.name] at hskip
    simp only [Bool.not_eq_true] at hr
    subst hr
    simp [FSEntry.name, hskip]
    exact ih
  · intro path fn r i rest f name hm absPath hskip ih
    rw [searchEntries.eq_def]
    simp [FSEntry.name] at hskip
    simp [FSEntry.name, hskip, hm]
    intro x hx
    exact ih x hx
  · intro path fn r i rest f name hm hskip ih
    rw [searchEntries.eq_def]
    simp [FSEntry.name] at hskip
    simp [FSEntry.name, hskip, hm]
    exact ih
  · intro path fn r i rest f name resolved hm hskip ih
    rw [searchEntries.eq_def]
    simp [FSEntry.name] at hskip
    simp [FSEntry.name, hskip, hm]
    exact ih
  · intro path fn r i rest f name hskip ih
    rw [searchEntries.eq_def]
    simp [FSEntry.name] at hskip
    simp [FSEntry.name, hskip]
    exact ih

theorem searchEntries_found_hasMatch :
    ∀ (path fn : String) (r i : Bool) (entries : List FSEntry) (f : Bool),
      (searchEntries path fn r i entries f).found = true →
        f = true ∨ hasMatchList fn r i entries = true := by
  refine searchEntries.induct
    (fun path fn r i listing =>
      (searchForFile path fn r i listing).found = true → hasMatchDir fn r i listing = true)
    (fun path fn r i entries f =>
      (searchEntries path fn r i entries f).found = true →
        f = true ∨ hasMatchList fn r i entries = true)
    ?_ ?_ ?_ ?_ ?_ ?_ ?_ ?_ ?_ ?_ ?_
  · intro path fn r i
    simp [searchForFile]
  · intro path fn r i entries ih h
    rw [searchForFile] at h
    rcases ih h with h' | h'
    · exact absurd h' (by simp)
    · simpa [hasMatchDir] using h'
  · intro path fn r i f h
    rw [searchEntries.eq_def] at h
    exact Or.inl (by simpa using h)
  · intro path fn r i ent rest f hskip ih h
    rw [searchEntries.eq_def] at h
    simp [hskip] at h
    rcases ih h with h' | h'
    · exact Or.inl h'
    · rw [hasMatchList.eq_def]
      simp [hskip, h']
  · intro path fn i rest name listing hskip ih h
    exact Or.inl rfl
  · intro path fn i rest f name listing hf sub hskip ih1 ih2 h
    rw [searchEntries.eq_def] at h
    simp [FSEntry.name] at hskip
    simp only [Bool.not_eq_true] at hf
    subst hf
    simp only [sub] at ih2
    simp [FSEntry.name, hskip] at h
    rcases ih2 h with h' | h'
    · refine Or.inr ?_
      rw [hasMatchList.eq_def]
      simp [FSEntry.name, hskip]
      exact Or.inl (ih1 h')
    · refine Or.inr ?_
      rw [hasMatchList.eq_def]
      simp [FSEntry.name, hskip]
      exact Or.inr h'
  · intro path fn r i rest f name listing hr hskip ih h
    rw [searchEntries.eq_def] at h
    simp [FSEntry.name] at hskip
    simp only [Bool.not_eq_true] at hr
    subst hr
    simp [FSEntry.name, hskip] at h
    rcases ih h with h' | h'
    · exact Or.inl h'
    · refine Or.inr ?_
      rw [hasMatchList.eq_def]
      simp [FSEntry.name, hskip]
      exact h'
  · intro path fn r i rest f name hm absPath hskip ih h
    refine Or.inr ?_
    rw [hasMatchList.eq_def]
    simp [FSEntry.name] at hskip
    simp [FSEntry.name, hskip]
    exact Or.inl hm
  · intro path fn r i rest f name hm hskip ih h
    refine Or.inr ?_
    rw [hasMatchList.eq_def]
    simp [FSEntry.name] at hskip
    simp [FSEntry.name, hskip]
    exact Or.inl hm
  · intro path fn r i rest f name resolved hm hskip ih h
    rw [searchEntries.eq_def] at h
    simp [FSEntry.name] at hskip
    simp [FSEntry.name, hskip, hm] at h
    rcases ih h with h' | h'
    · exact Or.inl h'
    · rw [hasMatchList.eq_def]
      simp [FSEntry.name, hskip, h']
  · intro path fn r i rest f name hskip ih h
    rw [searchEntries.eq_def] at h
    simp [FSEntry.name] at hskip
    simp [FSEntry.name, hskip] at h
    rcases ih h with h' | h'
    · exact Or.inl h'
    · rw [hasMatchList.eq_def]
      simp [FSEntry.name, hskip, h']

theorem hasResMatchList_found :
    ∀ (path fn : String) (r i : Bool) (entries : List FSEntry) (f : Bool),
      r = true → hasResMatchList fn i entries = true →
        (searchEntries path fn r i entries f).found = true := by
  refine searchEntries.induct
    (fun path fn r i listing =>
      r = true → hasResMatchDir fn i listing = true →
        (searchForFile path fn r i listing).found = true)
    (fun path fn r i entries f =>
      r = true → hasResMatchList fn i entries = true →
        (searchEntries path fn r i entries f).found = true)
    ?_ ?_ ?_ ?_ ?_ ?_ ?_ ?_ ?_ ?_ ?_
  · intro path fn r i hr hm
    rw [hasResMatchDir] at hm
    exact absurd hm (by simp)
  · intro path fn r i entries ih hr hm
    rw [hasResMatchDir] at hm
    rw [searchForFile]
    exact ih hr hm
  · intro path fn r i f hr hm
    rw [hasResMatchList.eq_def] at hm
    exact absurd hm (by simp)
  · intro path fn r i ent rest f hskip ih hr hm
    rw [hasResMatchList.eq_def] at hm
    rw [searchEntries.eq_def]
    simp [hskip] at hm ⊢
    exact ih hr hm
  · intro path fn i rest name listing hskip ih hr hm
    rw [searchEntries.eq_def]
    simp [FSEntry.name] at hskip
    simp [FSEntry.name, hskip, searchEntries_mono_true]
  · intro path fn i rest f name listing hf sub hskip ih1 ih2 hr hm
    rw [searchEntries.eq_def]
    simp [FSEntry.name] at hskip
    simp only [Bool.not_eq_true] at hf
    subst hf
    simp only [sub] at ih2
    rw [hasResMatchList.eq_def] at hm
    simp [FSEntry.name, hskip] at hm ⊢
    rcases hm with hm | hm
    · have hsub : (searchForFile (path ++ "/" ++ name) fn true i listing).found = true := by
        apply ih1 rfl
        rw [hasResMatchDir.eq_def]
        cases listing with
        | none => simp [hasResMatchDir] at hm
        | some l => simpa [hasResMatchDir] using hm
      rw [hsub]
      exact searchEntries_mono_true path fn true i rest
    · exact ih2 (by trivial) hm
  · intro path fn r i rest f name listing hr hskip ih hrt hm
    simp only [Bool.not_eq_true] at hr
    subst hr
    cases hrt
  · intro path fn r i rest f name hm absPath hskip ih hr hmm
    rw [searchEntries.eq_def]
    simp [FSEntry.name] at hskip
    simp [FSEntry.name, hskip, hm, searchEntries_mono_true]
  · intro path fn r i rest f name hmq hskip ih hr hm
    rw [hasResMatchList.eq_def] at hm
    rw [searchEntries.eq_def]
    simp [FSEntry.name] at hskip
    simp [FSEntry.name, hskip, hmq] at hm ⊢
    exact ih hr hm
  · intro path fn r i rest f name resolved hmq hskip ih hr hm
    rw [hasResMatchList.eq_def] at hm
    rw [searchEntries.eq_def]
    simp [FSEntry.name] at hskip
    have : (match FSEntry.file name resolved with
      | .file nm (some _) => isEqualString nm fn i
      | .file _ none => false
      | .dir _ listing => hasResMatchDir fn i listing
      | .other _ => false) = false := by
      cases resolved with
      | some p => simpa using hmq
      | none => rfl
    simp [FSEntry.name, hskip, hmq, this] at hm ⊢
    exact ih hr hm
  · intro path fn r i rest f name hskip ih hr hm
    rw [hasResMatchList.eq_def] at hm
    rw [searchEntries.eq_def]
    simp [FSEntry.name] at hskip
    simp [FSEntry.name, hskip] at hm ⊢
    exact ih hr hm

theorem mem_file_hasResMatch (fn fname p : String) (i : Bool) (entries : List FSEntry)
    (hmem : FSEntry.file fname (some p) ∈ entries)
    (h1 : fname ≠ ".") (h2 : fname ≠ "..")
    (hm : isEqualString fname fn i = true) :
    hasResMatchList fn i entries = true := by
  induction entries with
  | nil => cases hmem
  | cons ent rest ih =>
    rw [hasResMatchList.eq_def]
    rcases List.mem_cons.mp hmem with rfl | hmem'
    · simp [FSEntry.name, h1, h2, hm]
    · simp [ih hmem']

theorem mem_dir_hasResMatch (fn dname : String) (i : Bool)
    (entries sub : List FSEntry)
    (hmem : FSEntry.dir dname (some sub) ∈ entries)
    (h1 : dname ≠ ".") (h2 : dname ≠ "..")
    (hm : hasResMatchList fn i sub = true) :
    hasResMatchList fn i entries = true := by
  induction entries with
  | nil => cases hmem
  | cons ent rest ih =>
    rw [hasResMatchList.eq_def]
    rcases List.mem_cons.mp hmem with rfl | hmem'
    · simp [FSEntry.name, h1, h2]
      left
      rw [hasResMatchDir]
      exact hm
    · simp [ih hmem']

theorem shallow_results_subset :
    ∀ (path fn : String) (i : Bool) (entries : List FSEntry) (f1 f2 : Bool) (x : Rec),
      x ∈ (searchEntries path fn false i entries f1).results →
      x ∈ (searchEntries path fn true i entries f2).results := by
  intro path fn i entries
  induction entries with
  | nil =>
    intro f1 f2 x hx
    rw [searchEntries.eq_def] at hx
    simp at hx
  | cons ent rest ih =>
    intro f1 f2 x hx
    rw [searchEntries.eq_def] at hx
    rw [searchEntries.eq_def]
    by_cases hskip : (ent.name == "." || ent.name == "..") = true
    · simp only [hskip, if_true] at hx ⊢
      exact ih f1 f2 x hx
    · cases ent with
      | file name resolved =>
        simp [FSEntry.name] at hskip
        by_cases hm : isEqualString name fn i = true
        · cases resolved with
          | some p =>
            simp [FSEntry.name, hskip, hm] at hx ⊢
            rcases hx with rfl | hx
            · exact Or.inl rfl
            · exact Or.inr (ih true true x hx)
          | none =>
            simp [FSEntry.name, hskip, hm] at hx ⊢
            exact ih f1 f2 x hx
        · simp [FSEntry.name, hskip, hm] at hx ⊢
          exact ih f1 f2 x hx
      | dir name listing =>
        simp [FSEntry.name] at hskip
        simp [FSEntry.name, hskip] at hx ⊢
        cases f2 with
        | true => simpa using ih f1 true x hx
        | false =>
          simp only [Bool.false_eq_true, if_false, List.mem_append]
          exact Or.inr (ih f1 _ x hx)
      | other name =>
        simp [FSEntry.name] at hskip
        simp [FSEntry.name, hskip] at hx ⊢
        exact ih f1 f2 x hx

theorem searchForFile_found_hasMatch (path fn : String) (r i : Bool)
    (listing : Option (List FSEntry))
    (h : (searchForFile path fn r i listing).found = true) :
    hasMatchDir fn r i listing = true := by
  cases listing with
  | none => rw [searchForFile] at h; exact absurd h (by simp)
  | some entries =>
    rw [searchForFile] at h
    rcases searchEntries_found_hasMatch path fn r i entries false h with h' | h'
    · exact absurd h' (by simp)
    · rw [hasMatchDir]; exact h'

theorem searchForFile_results_shape (path fn : String) (r i : Bool)
    (listing : Option (List FSEntry)) :
    ∀ x ∈ (searchForFile path fn r i listing).results, ∃ p, x = Rec.found fn p := by
  cases listing with
  | none => rw [searchForFile]; simp
  | some entries =>
    rw [searchForFile]
    exact searchEntries_results_shape path fn r i entries false

theorem searchForFile_filter_found (path fn : String) (r i : Bool)
    (listing : Option (List FSEntry)) :
    (searchForFile path fn r i listing).results.filter Rec.isFound
      = (searchForFile path fn r i listing).results := by
  apply List.filter_eq_self.mpr
  intro x hx
  rcases searchForFile_results_shape path fn r i listing x hx with ⟨p, rfl⟩
  rfl

theorem searchForFile_filter_notFound (path fn : String) (r i : Bool)
    (listing : Option (List FSEntry)) :
    (searchForFile path fn r i listing).results.filter Rec.isNotFound = [] := by
  rw [List.filter_eq_nil_iff]
  intro x hx
  rcases searchForFile_results_shape path fn r i listing x hx with ⟨p, rfl⟩
  simp [Rec.isNotFound]

theorem runTask_filter_found (rootPath : String) (rootListing : Option (List FSEntry))
    (fn : String) (r i : Bool) :
    (runTask rootPath rootListing fn r i).1.filter Rec.isFound
      = (searchForFile rootPath fn r i rootListing).results := by
  rw [runTask]
  rw [List.filter_append, searchForFile_filter_found]
  cases h : (searchForFile rootPath fn r i rootListing).found <;>
    simp [Rec.isFound]

theorem runTask_filter_notFound (rootPath : String) (rootListing : Option (List FSEntry))
    (fn : String) (r i : Bool) :
    (runTask rootPath rootListing fn r i).1.filter Rec.isNotFound
      = (if (searchForFile rootPath fn r i rootListing).found
         then [] else [Rec.notFound fn rootPath]) := by
  rw [runTask]
  rw [List.filter_append, searchForFile_filter_notFound]
  cases h : (searchForFile rootPath fn r i rootListing).found <;>
    simp [Rec.isNotFound]

theorem runTask_ne_nil (rootPath : String) (rootListing : Option (List FSEntry))
    (fn : String) (r i : Bool) :
    (runTask rootPath rootListing fn r i).1 ≠ [] := by
  rw [runTask]
  cases h : (searchForFile rootPath fn r i rootListing).found with
  | true =>
    have := searchForFile_found_iff rootPath fn r i rootListing
    rw [h] at this
    intro hc
    rcases List.append_eq_nil.mp hc with ⟨h1, h2⟩
    rw [h1] at this
    simp at this
  | false => simp

theorem runTask_fname (rootPath : String) (rootListing : Option (List FSEntry))
    (fn : String) (r i : Bool) :
    ∀ x ∈ (runTask rootPath rootListing fn r i).1, x.fname = fn := by
  rw [runTask]
  intro x hx
  rcases List.mem_append.mp hx with hx | hx
  · rcases searchForFile_results_shape rootPath fn r i rootListing x hx with ⟨p, rfl⟩
    rfl
  · cases h : (searchForFile rootPath fn r i rootListing).found <;> rw [h] at hx
    · rcases List.mem_singleton.mp hx with rfl
      rfl
    · simp at hx

/-- C1: claimed — recursive traversal never stops after the first match, and
for a root with a matching file both directly and inside a subdirectory the
task emits one Found line per path regardless of enumeration order.  The code
violates this: in `isFound = isFound || searchForFile(…)` (myfind.cpp line
68) the `||` short-circuits, so once a match was found at a level, later
sibling subdirectories are never entered.  With the matching file enumerated
before the subdirectory only one Found line is produced; with the opposite
order both appear. -/
theorem recursive_search_stops_after_sibling_match :
    (searchForFile "/tmp/t" "a.txt" true false
        (some [FSEntry.file "a.txt" (some "/tmp/t/a.txt"),
               FSEntry.dir "sub" (some [FSEntry.file "a.txt" (some "/tmp/t/sub/a.txt")])])).results
      = [Rec.found "a.txt" "/tmp/t/a.txt"] ∧
    (searchForFile "/tmp/t" "a.txt" true false
        (some [FSEntry.dir "sub" (some [FSEntry.file "a.txt" (some "/tmp/t/sub/a.txt")]),
               FSEntry.file "a.txt" (some "/tmp/t/a.txt")])).results
      = [Rec.found "a.txt" "/tmp/t/sub/a.txt", Rec.found "a.txt" "/tmp/t/a.txt"] := by
  constructor <;>
    simp [searchForFile, searchEntries, isEqualString, FSEntry.name]

/-- C2: every requested filename yields at least one output line attributable
to it — its task's record list is in the run, is non-empty, and every record
in it carries that filename. -/
theorem every_filename_produces_output (rootPath : String)
    (rootListing : Option (List FSEntry)) (filenames : List String)
    (r i : Bool) (fn : String) (hfn : fn ∈ filenames) :
    ∃ out, (fn, out) ∈ runAll rootPath rootListing filenames r i ∧
      out ≠ [] ∧ ∀ x ∈ out, x.fname = fn := by
  refine ⟨(runTask rootPath rootListing fn r i).1, ?_, ?_, ?_⟩
  · rw [runAll]
    exact List.mem_map.mpr ⟨fn, hfn, rfl⟩
  · exact runTask_ne_nil rootPath rootListing fn r i
  · exact runTask_fname rootPath rootListing fn r i

/-- C2 witness: instantiation at a two-filename run over an empty root. -/
theorem every_filename_produces_output_witness :
    ∃ out, ("a.txt", out) ∈ runAll "/r" (some []) ["a.txt", "b.txt"] false false ∧
      out ≠ [] ∧ ∀ x ∈ out, x.fname = "a.txt" :=
  every_filename_produces_output "/r" (some []) ["a.txt", "b.txt"] false false
    "a.txt" (by simp)

/-- When no matching file is in scope, a task's pipe output is the single
synthetic NotFound line. -/
theorem runTask_no_match_eq_notfound (rootPath : String)
    (rootListing : Option (List FSEntry)) (fn : String) (r i : Bool)
    (h : hasMatchDir fn r i rootListing = false) :
    (runTask rootPath rootListing fn r i).1 = [Rec.notFound fn rootPath] := by
  have hf : (searchForFile rootPath fn r i rootListing).found = false := by
    cases hc : (searchForFile rootPath fn r i rootListing).found with
    | false => rfl
    | true => rw [searchForFile_found_hasMatch rootPath fn r i rootListing hc] at h; cases h
  have hr : (searchForFile rootPath fn r i rootListing).results = [] := by
    have := searchForFile_found_iff rootPath fn r i rootListing
    rw [hf] at this
    cases hres : (searchForFile rootPath fn r i rootListing).results with
    | nil => rfl
    | cons x xs => rw [hres] at this; simp at this
  rw [runTask, hf, hr]
  rfl

/-- C3: when no regular file matching `fn` under the active case policy
exists within the traversal scope (`hasMatchDir` — the immediate children
when non-recursive, the openable subtree when recursive), the task's output
is exactly one NotFound line for `fn`: not zero, not more, and nothing
else. -/
theorem no_match_exactly_one_notfound (rootPath : String)
    (rootListing : Option (List FSEntry)) (fn : String) (r i : Bool)
    (h : hasMatchDir fn r i rootListing = false) :
    (runTask rootPath rootListing fn r i).1 = [Rec.notFound fn rootPath] :=
  runTask_no_match_eq_notfound rootPath rootListing fn r i h

/-- C3 witness: the query `missing.txt` against an empty root. -/
theorem no_match_exactly_one_notfound_witness :
    (runTask "/r" (some []) "missing.txt" false false).1
      = [Rec.notFound "missing.txt" "/r"] :=
  no_match_exactly_one_notfound "/r" (some []) "missing.txt" false false
    (by simp [hasMatchDir, hasMatchList])

/-- C4: filename matching is byte-exact when case-insensitive mode is off
and a locale-independent case fold when it is on: `Report.TXT` matches the
query `report.txt` exactly when the mode is active, a byte-equal name
matches in both modes, and on a root holding only `Report.TXT` the search
emits a Found record for query `report.txt` exactly in case-insensitive
mode. -/
theorem matching_case_policy (s : String) (b : Bool) :
    isEqualString "Report.TXT" "report.txt" b = b ∧
    isEqualString s s b = true ∧
    (searchForFile "/r" "report.txt" false b
        (some [FSEntry.file "Report.TXT" (some "/r/Report.TXT")])).results
      = (if b then [Rec.found "report.txt" "/r/Report.TXT"] else []) := by
  refine ⟨?_, ?_, ?_⟩
  · cases b <;> decide
  · cases b <;> simp [isEqualString, strcasecmpEq]
  · cases b with
    | false =>
      simp [searchForFile, searchEntries, isEqualString, FSEntry.name]
    | true =>
      have hm : isEqualString "Report.TXT" "report.txt" true = true := by decide
      simp [searchForFile, searchEntries, hm, FSEntry.name]


/-- C5: the recursion boundary.  For a root holding a direct child
directory that contains a resolvable regular file matching the query, with
no matching file at the root level itself, the task reports Found (at least
one Found line and no NotFound line) when recursive mode is on, and reports
exactly the NotFound line when it is off — subdirectories are never entered
in shallow mode. -/
theorem recursion_boundary (path fn dname fname p : String) (i : Bool)
    (entries sub : List FSEntry)
    (hd : FSEntry.dir dname (some sub) ∈ entries)
    (hd1 : dname ≠ ".") (hd2 : dname ≠ "..")
    (hf : FSEntry.file fname (some p) ∈ sub)
    (hf1 : fname ≠ ".") (hf2 : fname ≠ "..")
    (hm : isEqualString fname fn i = true)
    (hroot : hasMatchList fn false i entries = false) :
    ((runTask path (some entries) fn true i).1.filter Rec.isFound ≠ [] ∧
     (runTask path (some entries) fn true i).1.filter Rec.isNotFound = []) ∧
    (runTask path (some entries) fn false i).1 = [Rec.notFound fn path] := by
  have hres : hasResMatchList fn i entries = true :=
    mem_dir_hasResMatch fn dname i entries sub hd hd1 hd2
      (mem_file_hasResMatch fn fname p i sub hf hf1 hf2 hm)
  have hfound : (searchForFile path fn true i (some entries)).found = true := by
    rw [searchForFile]
    exact hasResMatchList_found path fn true i entries false rfl hres
  constructor
  · constructor
    · rw [runTask_filter_found]
      have := searchForFile_found_iff path fn true i (some entries)
      rw [hfound] at this
      intro hc
      rw [hc] at this
      simp at this
    · rw [runTask_filter_notFound, hfound]
      rfl
  · exact runTask_no_match_eq_notfound path (some entries) fn false i
      (by rw [hasMatchDir]; exact hroot)

/-- C5 witness: a root whose only entry is the subdirectory `sub`
containing `a.txt`. -/
theorem recursion_boundary_witness :
    ((runTask "/r" (some [FSEntry.dir "sub" (some [FSEntry.file "a.txt" (some "/r/sub/a.txt")])])
        "a.txt" true false).1.filter Rec.isFound ≠ [] ∧
     (runTask "/r" (some [FSEntry.dir "sub" (some [FSEntry.file "a.txt" (some "/r/sub/a.txt")])])
        "a.txt" true false).1.filter Rec.isNotFound = []) ∧
    (runTask "/r" (some [FSEntry.dir "sub" (some [FSEntry.file "a.txt" (some "/r/sub/a.txt")])])
        "a.txt" false false).1 = [Rec.notFound "a.txt" "/r"] :=
  recursion_boundary "/r" "a.txt" "sub" "a.txt" "/r/sub/a.txt" false
    [FSEntry.dir "sub" (some [FSEntry.file "a.txt" (some "/r/sub/a.txt")])]
    [FSEntry.file "a.txt" (some "/r/sub/a.txt")]
    (by simp) (by decide) (by decide)
    (by simp) (by decide) (by decide)
    (by decide)
    (by simp [hasMatchList, FSEntry.name])

/-- C6: a directory-open failure is local.  Opening failure yields `false`
for that level, no result records, and one diagnostic on the error stream,
distinct from the result stream; an unopenable subdirectory leaves the
sibling traversal and the found flag unchanged apart from the added
diagnostic; and a failure at the task's own root makes the whole task
report exactly its NotFound line. -/
theorem dir_open_failure_local (path fn dname : String) (r i f : Bool)
    (rest : List FSEntry) (h1 : dname ≠ ".") (h2 : dname ≠ "..") :
    searchForFile path fn r i none = ⟨false, [], [path]⟩ ∧
    (searchEntries path fn true i (FSEntry.dir dname none :: rest) f =
      (let s := searchEntries path fn true i rest f
       if f then s else ⟨s.found, s.results, (path ++ "/" ++ dname) :: s.diags⟩)) ∧
    (runTask path none fn r i).1 = [Rec.notFound fn path] := by
  refine ⟨by rw [searchForFile], ?_, ?_⟩
  · rw [searchEntries.eq_def]
    cases f with
    | true => simp [FSEntry.name, h1, h2]
    | false => simp [FSEntry.name, h1, h2, searchForFile]
  · rw [runTask, searchForFile]
    rfl

/-- C6 witness: an unopenable subdirectory beside one sibling entry, and an
unopenable root. -/
theorem dir_open_failure_local_witness :
    searchForFile "/r" "a.txt" false false none = ⟨false, [], ["/r"]⟩ ∧
    (searchEntries "/r" "a.txt" true false
        (FSEntry.dir "locked" none :: [FSEntry.other "s"]) false =
      (let s := searchEntries "/r" "a.txt" true false [FSEntry.other "s"] false
       if false then s else ⟨s.found, s.results, ("/r" ++ "/" ++ "locked") :: s.diags⟩)) ∧
    (runTask "/r" none "a.txt" false false).1 = [Rec.notFound "a.txt" "/r"] :=
  dir_open_failure_local "/r" "a.txt" "locked" false false false
    [FSEntry.other "s"] (by decide) (by decide)

/-- C7: a matched regular file whose path fails to resolve is silently
dropped: the traversal state (found flag, results, diagnostics) after the
entry equals the state had the entry not been there, so it alone cannot
suppress the NotFound report; a task whose root holds only such a file
reports NotFound and does not crash. -/
theorem unresolved_match_dropped (path fn nm : String) (r i f : Bool)
    (rest : List FSEntry) (h1 : nm ≠ ".") (h2 : nm ≠ "..")
    (hm : isEqualString nm fn i = true) :
    searchEntries path fn r i (FSEntry.file nm none :: rest) f
      = searchEntries path fn r i rest f ∧
    (runTask path (some [FSEntry.file nm none]) fn r i).1
      = [Rec.notFound fn path] := by
  constructor
  · rw [searchEntries.eq_def]
    simp [FSEntry.name, h1, h2, hm]
  · rw [runTask, searchForFile]
    rw [searchEntries.eq_def]
    simp [FSEntry.name, h1, h2, hm]
    rw [searchEntries.eq_def]
    rfl

/-- C7 witness: the unresolvable match `ghost.txt`. -/
theorem unresolved_match_dropped_witness :
    searchEntries "/r" "ghost.txt" false false
        (FSEntry.file "ghost.txt" none :: [FSEntry.other "s"]) false
      = searchEntries "/r" "ghost.txt" false false [FSEntry.other "s"] false ∧
    (runTask "/r" (some [FSEntry.file "ghost.txt" none]) "ghost.txt" false false).1
      = [Rec.notFound "ghost.txt" "/r"] :=
  unresolved_match_dropped "/r" "ghost.txt" "ghost.txt" false false false
    [FSEntry.other "s"] (by decide) (by decide) (by decide)

/-- C8: fewer than two positional arguments after option parsing (missing
root or no filename) is the usage error: `main` exits with a non-zero
status on the `usageError` outcome, which precedes the pipe creation, the
forks and every directory open, so nothing is searched. -/
theorem usage_error_no_search (positional : List String)
    (rootListing : Option (List FSEntry)) (r i : Bool)
    (h : positional.length < 2) :
    mainAfterOpts positional rootListing r i = RunOutcome.usageError ∧
    exitCode (mainAfterOpts positional rootListing r i) ≠ 0 := by
  match positional with
  | [] => exact ⟨rfl, by simp [mainAfterOpts, exitCode]⟩
  | [root] => exact ⟨rfl, by simp [mainAfterOpts, exitCode]⟩
  | root :: fn :: fns => exact absurd h (by simp)

/-- C8 witness: a root path with no filename. -/
theorem usage_error_no_search_witness :
    mainAfterOpts ["/r"] (some []) false false = RunOutcome.usageError ∧
    exitCode (mainAfterOpts ["/r"] (some []) false false) ≠ 0 :=
  usage_error_no_search ["/r"] (some []) false false (by decide)

/-- C9: per-task invariant — the boolean `searchForFile` returns is true
exactly when at least one Found record was written, and the task's pipe
output contains the synthetic NotFound line exactly when it contains zero
Found lines (never both kinds). -/
theorem task_terminal_record_invariant (rootPath : String)
    (rootListing : Option (List FSEntry)) (fn : String) (r i : Bool) :
    ((searchForFile rootPath fn r i rootListing).found = true
      ↔ (searchForFile rootPath fn r i rootListing).results ≠ []) ∧
    ((runTask rootPath rootListing fn r i).1.filter Rec.isNotFound
      = (if (runTask rootPath rootListing fn r i).1.filter Rec.isFound = []
         then [Rec.notFound fn rootPath] else [])) := by
  have hiff := searchForFile_found_iff rootPath fn r i rootListing
  constructor
  · rw [hiff]
    cases hres : (searchForFile rootPath fn r i rootListing).results with
    | nil => simp
    | cons x xs => simp
  · rw [runTask_filter_found, runTask_filter_notFound]
    cases hres : (searchForFile rootPath fn r i rootListing).results with
    | nil =>
      rw [hres] at hiff
      simp at hiff
      rw [hiff]
      rfl
    | cons x xs =>
      rw [hres] at hiff
      simp at hiff
      rw [hiff]
      simp

/-- C10: monotonicity — every Found record the shallow search emits is also
emitted by the recursive search over the same tree, filename and case
policy: root-level regular files are tested independently of the found
flag and of the recursion setting. -/
theorem shallow_subset_recursive (path fn : String) (i : Bool)
    (listing : Option (List FSEntry)) (x : Rec)
    (hx : x ∈ (searchForFile path fn false i listing).results) :
    x ∈ (searchForFile path fn true i listing).results := by
  cases listing with
  | none => rw [searchForFile] at hx; simp at hx
  | some entries =>
    rw [searchForFile] at hx
    rw [searchForFile]
    exact shallow_results_subset path fn i entries false false x hx

/-- C10 witness: the root-level match `a.txt` found by the shallow search
is in the recursive search's output over the same tree. -/
theorem shallow_subset_recursive_witness :
    Rec.found "a.txt" "/r/a.txt"
      ∈ (searchForFile "/r" "a.txt" true false
          (some [FSEntry.file "a.txt" (some "/r/a.txt"),
                 FSEntry.dir "sub" (some [])])).results :=
  shallow_subset_recursive "/r" "a.txt" false
    (some [FSEntry.file "a.txt" (some "/r/a.txt"), FSEntry.dir "sub" (some [])])
    (Rec.found "a.txt" "/r/a.txt")
    (by simp [searchForFile, searchEntries, isEqualString, FSEntry.name])

end Myfind
